import Mathlib

/-!
Verification development for the lecture voice-to-notes pipeline.

The development shallowly embeds the chunked-transcription pipeline of
the repository: the string concatenation of segment transcripts
(transcribe_full_audio), the bounded-retry wrapper with exponential
backoff (safe_gemini_call), the per-segment staged-upload protocol with
guaranteed-release cleanup (transcribe_chunk), the fixed-length audio
segmentation (make_chunks / chunk_audio_file), and the media
normalisation step (extract_audio_if_video).

Remote calls are modelled by oracles: a function from the invocation
index to the outcome of that invocation, so that retry behaviour is
observable.  Filesystem and remote-service state is passed explicitly as
lists of paths / handle names, and the effectful functions also return
the ordered list of intermediate states they passed through, so that
temporal invariants (at most one staged file at a time) can be stated.
-/

set_option maxHeartbeats 1000000

namespace VoiceNotes

/-- Text is modelled as a list of characters so that the Python string
operations used by the pipeline (strip, concatenation, equality tests)
are fully executable and provable. -/
abbrev Str : Type := List Char

/-- The whitespace characters removed by Python str.strip with no
arguments. -/
def isPySpace (c : Char) : Bool :=
  c = ' ' || c = '\t' || c = '\n' || c = '\r' || c = '\x0b' || c = '\x0c'

/-- Python str.lstrip: remove leading whitespace. -/
def lstrip (s : Str) : Str := s.dropWhile isPySpace

/-- Python str.rstrip: remove trailing whitespace. -/
def rstrip (s : Str) : Str := (s.reverse.dropWhile isPySpace).reverse

/-- Python str.strip: remove leading and trailing whitespace. -/
def pyStrip (s : Str) : Str := lstrip (rstrip s)

theorem rstrip_append_space (s : Str) : rstrip (s ++ [' ']) = rstrip s := by
  simp [rstrip, List.reverse_append, List.dropWhile_cons, isPySpace]

theorem pyStrip_append_space (s : Str) : pyStrip (s ++ [' ']) = pyStrip s := by
  simp [pyStrip, rstrip_append_space]

/-- Modelled from the spec: the spec-side formula for the full
transcript joins the raw fragments in index order with a single
separating space.  This is the comparison point for claim C1; the code
side is the accumulation loop of transcribe_full_audio. -/
def specJoin : List Str → Str
  | [] => []
  | [t] => t
  | t :: t' :: ts => t ++ ' ' :: specJoin (t' :: ts)

/-- Modelled from the spec: trim(concat(fragment[0], space, ...,
fragment[n-1])), the claimed value of the FullTranscript. -/
def specFullTranscript (ts : List Str) : Str := pyStrip (specJoin ts)

/-- The accumulation performed by the loop body of
transcribe_full_audio: full_transcript += chunk_transcript.strip() plus
a trailing space. -/
def accumStep (acc : Str) (t : Str) : Str := acc ++ pyStrip t ++ [' ']

theorem foldl_accumStep_append (ts : List Str) :
    ∀ a : Str, ts.foldl accumStep a = a ++ ts.foldl accumStep [] := by
  induction ts with
  | nil => intro a; simp
  | cons t ts ih =>
    intro a
    simp only [List.foldl_cons]
    rw [ih (accumStep a t), ih (accumStep [] t)]
    simp [accumStep, List.append_assoc]

theorem foldl_accumStep_eq_specJoin (ts : List Str) (hne : ts ≠ []) :
    ts.foldl accumStep [] = specJoin (ts.map pyStrip) ++ [' '] := by
  induction ts with
  | nil => exact absurd rfl hne
  | cons t ts ih =>
    cases ts with
    | nil => simp [accumStep, specJoin]
    | cons t' ts' =>
      rw [List.foldl_cons, foldl_accumStep_append (t' :: ts') (accumStep [] t),
        ih (by simp)]
      simp [accumStep, specJoin, List.append_assoc]

theorem pyStrip_foldl_accumStep (ts : List Str) :
    pyStrip (ts.foldl accumStep []) = specFullTranscript (ts.map pyStrip) := by
  by_cases h : ts = []
  · subst h; simp [specFullTranscript, specJoin]
  · rw [foldl_accumStep_eq_specJoin ts h, specFullTranscript,
      pyStrip_append_space]

/-! ## The retry wrapper safe_gemini_call -/

/-- The fixed attempt bound of the retry wrapper (max_retries = 3 in the
source). -/
def max_retries : Nat := 3

/-- Observable trace of one wrapped remote call: the final outcome, the
number of times the wrapped operation was invoked, and the chronological
list of backoff sleeps (in seconds) performed between attempts. -/
structure CallTrace (ε α : Type) where
  result : Except ε α
  calls : Nat
  sleeps : List Nat

/-- The retry loop body of safe_gemini_call.  attempt is the index of
the current invocation, delay the current backoff value, and remaining
the number of retries still allowed after this attempt; remaining = 0
corresponds to the final attempt (attempt = max_retries - 1), whose
failure is re-raised rather than retried. -/
def retryRun (op : Nat → Except ε α) (attempt delay : Nat) :
    Nat → CallTrace ε α
  | 0 =>
    match op attempt with
    | Except.ok a => ⟨Except.ok a, 1, []⟩
    | Except.error e => ⟨Except.error e, 1, []⟩
  | r + 1 =>
    match op attempt with
    | Except.ok a => ⟨Except.ok a, 1, []⟩
    | Except.error _ =>
      let t := retryRun op (attempt + 1) (delay * 2) r
      ⟨t.result, t.calls + 1, delay :: t.sleeps⟩

/-- The retry wrapper _safe_gemini_call: up to max_retries attempts of
the wrapped operation, starting with a 1 second delay that doubles on
each retry. -/
def safe_gemini_call (op : Nat → Except ε α) : CallTrace ε α :=
  retryRun op 0 1 (max_retries - 1)

deriving instance DecidableEq for Except

/-- A remote operation that fails on its first two invocations and
succeeds on the third. -/
def opFlaky : Nat → Except Nat Nat := fun i =>
  if i < 2 then Except.error i else Except.ok 7

/-- A remote operation that fails on every invocation, each time with
its own error value. -/
def opDead : Nat → Except Nat Nat := fun i => Except.error (i + 10)

/-- C2: an operation that fails twice and then succeeds is invoked
exactly 3 times by the retry wrapper and the third invocation's result
is returned; an operation that fails on every attempt is invoked exactly
3 times and the surfaced exception is the one raised by the operation
itself (its final invocation), not a wrapper-specific one. -/
theorem safe_call_retry_contract {ε α : Type}
    (op₁ op₂ : Nat → Except ε α) (e₀ e₁ : ε) (a : α) (f : Nat → ε)
    (h0 : op₁ 0 = Except.error e₀) (h1 : op₁ 1 = Except.error e₁)
    (h2 : op₁ 2 = Except.ok a)
    (hf : ∀ i, i < 3 → op₂ i = Except.error (f i)) :
    safe_gemini_call op₁ = ⟨Except.ok a, 3, [1, 2]⟩ ∧
      safe_gemini_call op₂ = ⟨Except.error (f 2), 3, [1, 2]⟩ := by
  have g0 := hf 0 (by omega)
  have g1 := hf 1 (by omega)
  have g2 := hf 2 (by omega)
  constructor <;>
    simp [safe_gemini_call, max_retries, retryRun, h0, h1, h2, g0, g1, g2]

/-- Concrete instantiation of the retry contract: opFlaky fails twice
then returns 7; opDead always fails, the surfaced error is the third
invocation's error value 12. -/
theorem safe_call_retry_contract_witness :
    safe_gemini_call opFlaky = ⟨Except.ok 7, 3, [1, 2]⟩ ∧
      safe_gemini_call opDead = ⟨Except.error 12, 3, [1, 2]⟩ :=
  safe_call_retry_contract opFlaky opDead 0 1 7 (fun i => i + 10)
    (by decide) (by decide) (by decide) (by decide)

/-- A second always-failing operation, used for the backoff claim. -/
def opDead' : Nat → Except Nat Nat := fun i => Except.error (i + 20)

/-- C6 counterexample: for an always-failing operation the wrapper
sleeps 1s and then 2s only; it never sleeps 4s, because the third failed
attempt re-raises immediately.  The claimed sleep sequence [1, 2, 4]
does not occur. -/
theorem backoff_sleeps_counterexample :
    (safe_gemini_call opDead').sleeps ≠ [1, 2, 4] := by decide

/-- C6 amended: when the wrapped operation fails on every attempt, the
wrapper performs exactly the backoff sleeps 1s then 2s between its three
attempts; the delay value doubles on each retry but no wait follows the
final failed attempt. -/
theorem backoff_sleeps_amended {ε α : Type} (op : Nat → Except ε α)
    (h : ∀ i, i < 3 → ∃ e, op i = Except.error e) :
    (safe_gemini_call op).sleeps = [1, 2] ∧
      (safe_gemini_call op).calls = 3 := by
  obtain ⟨x0, g0⟩ := h 0 (by omega)
  obtain ⟨x1, g1⟩ := h 1 (by omega)
  obtain ⟨x2, g2⟩ := h 2 (by omega)
  constructor <;> simp [safe_gemini_call, max_retries, retryRun, g0, g1, g2]

/-- Concrete instantiation of the amended backoff behaviour on the
always-failing operation opDead'. -/
theorem backoff_sleeps_amended_witness :
    (safe_gemini_call opDead').sleeps = [1, 2] ∧
      (safe_gemini_call opDead').calls = 3 :=
  backoff_sleeps_amended opDead' (fun i _ => ⟨i + 20, rfl⟩)

/-! ## The per-segment transcription protocol and the pipeline loop -/

/-- State of the resources the transcription pipeline manipulates:
the set of existing local temporary files, the set of files currently
staged with the remote service (by assigned name), and the contents of
the uploaded_files_ref bookkeeping list (the names of the handles
appended to it). -/
structure PipeState where
  locals : List Str
  remote : List Str
  registry : List Str
deriving DecidableEq

/-- Oracle describing the remote service's behaviour for one segment:
the outcome of the i-th upload invocation (ok carries the assigned
remote name), the outcome of the i-th generate_content invocation (ok
carries the transcript text), and the outcome of the single unwrapped
files.delete call. -/
structure ChunkOracle (ε : Type) where
  upload : Nat → Except ε Str
  generate : Nat → Except ε Str
  del : Except ε Unit

/-- Result of one _transcribe_chunk call: the returned transcript or
the propagated exception, the final resource state, the ordered
intermediate states after each resource mutation, and the invocation
counts of the remote delete and the local file removal. -/
structure ChunkOut (ε : Type) where
  result : Except ε Str
  state : PipeState
  states : List PipeState
  delCalls : Nat
  localRemoves : Nat

/-- The Transcription Client _transcribe_chunk: upload the segment via
the retry wrapper and register the handle; then request a transcription
via the retry wrapper; finally (on every path reached after a
successful upload) delete the remote staged file with a single
unwrapped call and, if that call returned, remove the local segment
file if it still exists.  A failure of the unwrapped delete replaces
the pending result, skips the local removal and leaves the staged file
on the service; a failure of the upload propagates before the
try/finally block exists, so no cleanup runs at all. -/
def transcribe_chunk (oc : ChunkOracle ε) (chunk_path : Str)
    (s : PipeState) : ChunkOut ε :=
  match (safe_gemini_call oc.upload).result with
  | Except.error e => ⟨Except.error e, s, [], 0, 0⟩
  | Except.ok name =>
    let s1 : PipeState :=
      { s with remote := s.remote ++ [name], registry := s.registry ++ [name] }
    let pending : Except ε Str := (safe_gemini_call oc.generate).result
    match oc.del with
    | Except.error e2 => ⟨Except.error e2, s1, [s1], 1, 0⟩
    | Except.ok _ =>
      let s2 : PipeState := { s1 with remote := s1.remote.erase name }
      if chunk_path ∈ s2.locals then
        let s3 : PipeState := { s2 with locals := s2.locals.erase chunk_path }
        ⟨pending, s3, [s1, s2, s3], 1, 1⟩
      else
        ⟨pending, s2, [s1, s2], 1, 0⟩

/-- The literal string returned in-band by transcribe_full_audio when
any chunk's transcription raised. -/
def failLiteral : Str := String.toList "Transcription failed."

/-- The caller's failure test in the main processing block of the app:
the returned transcript is compared for equality with the literal
string. -/
def transcript_failure_check (t : Str) : Bool := t == failLiteral

/-- The chunk loop of transcribe_full_audio: process the chunks in
order; on success append the stripped fragment and a trailing space to
the accumulator; on the first exception stop (the exception propagates
to the enclosing handler).  Also returns the final state and the
concatenated intermediate state trace. -/
def transcribeLoop (chunks : List (Str × ChunkOracle ε)) (acc : Str)
    (s : PipeState) : Except ε Str × PipeState × List PipeState :=
  match chunks with
  | [] => (Except.ok acc, s, [])
  | (p, oc) :: rest =>
    let r := transcribe_chunk oc p s
    match r.result with
    | Except.ok text =>
      let out := transcribeLoop rest (accumStep acc text) r.state
      (out.1, out.2.1, r.states ++ out.2.2)
    | Except.error e => (Except.error e, r.state, r.states)

/-- Result of transcribe_full_audio: the transcript it returns (in-band
failure included), the final resource state and the state trace. -/
structure FullOut (ε : Type) where
  transcript : Str
  state : PipeState
  states : List PipeState

/-- The orchestrating transcribe_full_audio: initialise the
uploaded_files_ref registry to empty, run the chunk loop from an empty
accumulator, and return the stripped accumulation on success or the
literal string on any exception. -/
def transcribe_full_audio (chunks : List (Str × ChunkOracle ε))
    (s : PipeState) : FullOut ε :=
  let out := transcribeLoop chunks [] { s with registry := [] }
  match out.1 with
  | Except.ok full => ⟨pyStrip full, out.2.1, out.2.2⟩
  | Except.error _ => ⟨failLiteral, out.2.1, out.2.2⟩

/-! ## Helper lemmas about one chunk and about the loop -/

theorem chunk_remote_empty {ε : Type} (oc : ChunkOracle ε) (p : Str)
    (s : PipeState) (hrem : s.remote = []) (hdel : oc.del = Except.ok ()) :
    (transcribe_chunk oc p s).state.remote = [] := by
  cases hu : (safe_gemini_call oc.upload).result with
  | error e => simp [transcribe_chunk, hu, hrem]
  | ok name =>
    simp only [transcribe_chunk, hu, hdel]
    split <;> simp [hrem]

theorem chunk_ok_remote {ε : Type} (oc : ChunkOracle ε) (p : Str)
    (s : PipeState) (t : Str) (hrem : s.remote = [])
    (hok : (transcribe_chunk oc p s).result = Except.ok t) :
    (transcribe_chunk oc p s).state.remote = [] := by
  cases hu : (safe_gemini_call oc.upload).result with
  | error e => simp [transcribe_chunk, hu] at hok
  | ok name =>
    cases hd : oc.del with
    | error e2 => simp [transcribe_chunk, hu, hd] at hok
    | ok u =>
      simp only [transcribe_chunk, hu, hd]
      split <;> simp [hrem]

theorem chunk_states_bound {ε : Type} (oc : ChunkOracle ε) (p : Str)
    (s : PipeState) (hrem : s.remote = []) :
    ∀ st ∈ (transcribe_chunk oc p s).states, st.remote.length ≤ 1 := by
  cases hu : (safe_gemini_call oc.upload).result with
  | error e => simp [transcribe_chunk, hu]
  | ok name =>
    cases hd : oc.del with
    | error e2 =>
      simp [transcribe_chunk, hu, hd, hrem]
    | ok u =>
      simp only [transcribe_chunk, hu, hd]
      split <;> intro st hst <;>
        simp only [List.mem_cons, List.mem_singleton, List.not_mem_nil,
          or_false] at hst <;>
        rcases hst with h | h | h <;> subst_eqs <;> simp [hrem]

theorem loop_remote_empty {ε : Type} (chunks : List (Str × ChunkOracle ε)) :
    ∀ (acc : Str) (s : PipeState), s.remote = [] →
      (∀ c ∈ chunks, c.2.del = Except.ok ()) →
      (transcribeLoop chunks acc s).2.1.remote = [] := by
  induction chunks with
  | nil => intro acc s hrem _; simpa [transcribeLoop] using hrem
  | cons c rest ih =>
    intro acc s hrem hdel
    obtain ⟨p, oc⟩ := c
    have hdc : oc.del = Except.ok () := hdel (p, oc) (by simp)
    have hnext : (transcribe_chunk oc p s).state.remote = [] :=
      chunk_remote_empty oc p s hrem hdc
    simp only [transcribeLoop]
    cases hr : (transcribe_chunk oc p s).result with
    | ok text =>
      simpa using ih (accumStep acc text) (transcribe_chunk oc p s).state
        hnext (fun c hc => hdel c (by simp [hc]))
    | error e => simpa using hnext

theorem loop_states_bound {ε : Type} (chunks : List (Str × ChunkOracle ε)) :
    ∀ (acc : Str) (s : PipeState), s.remote = [] →
      ∀ st ∈ (transcribeLoop chunks acc s).2.2, st.remote.length ≤ 1 := by
  induction chunks with
  | nil => intro acc s _; simp [transcribeLoop]
  | cons c rest ih =>
    intro acc s hrem
    obtain ⟨p, oc⟩ := c
    simp only [transcribeLoop]
    cases hr : (transcribe_chunk oc p s).result with
    | ok text =>
      intro st hst
      simp only [List.mem_append] at hst
      rcases hst with h | h
      · exact chunk_states_bound oc p s hrem st h
      · exact ih (accumStep acc text) (transcribe_chunk oc p s).state
          (chunk_ok_remote oc p s text hrem hr) st (by simpa using h)
    | error e =>
      intro st hst
      exact chunk_states_bound oc p s hrem st (by simpa using hst)

/-- A chunk whose remote calls all eventually succeed within the retry
bound, its generate call returning the transcript t. -/
def ChunkSucceeds {ε : Type} (c : Str × ChunkOracle ε) (t : Str) : Prop :=
  (∃ nm, (safe_gemini_call c.2.upload).result = Except.ok nm) ∧
    c.2.del = Except.ok () ∧
    (safe_gemini_call c.2.generate).result = Except.ok t

theorem chunk_result_of_succeeds {ε : Type} (oc : ChunkOracle ε)
    (p t : Str) (s : PipeState) (h : ChunkSucceeds (p, oc) t) :
    (transcribe_chunk oc p s).result = Except.ok t := by
  obtain ⟨⟨nm, hup⟩, hdel, hgen⟩ := h
  have hup' : (safe_gemini_call oc.upload).result = Except.ok nm := hup
  have hdel' : oc.del = Except.ok () := hdel
  have hgen' : (safe_gemini_call oc.generate).result = Except.ok t := hgen
  simp only [transcribe_chunk, hup', hdel', hgen']
  split <;> rfl

theorem loop_success_concat {ε : Type}
    {chunks : List (Str × ChunkOracle ε)} {ts : List Str}
    (hF : List.Forall₂ ChunkSucceeds chunks ts) :
    ∀ (acc : Str) (s : PipeState),
      (transcribeLoop chunks acc s).1 = Except.ok (ts.foldl accumStep acc) := by
  induction hF with
  | nil => intro acc s; simp [transcribeLoop]
  | @cons c t rest ts' hct hrest ih =>
    intro acc s
    obtain ⟨p, oc⟩ := c
    simp only [transcribeLoop, chunk_result_of_succeeds oc p t s hct,
      List.foldl_cons]
    exact ih (accumStep acc t) (transcribe_chunk oc p s).state

/-! ## Concrete oracles and runs used as witnesses and counterexamples -/

/-- Local path of the first concrete segment. -/
def pA : Str := String.toList "chunk_0.wav"

/-- Local path of the second concrete segment. -/
def pB : Str := String.toList "chunk_1.wav"

/-- Remote name assigned to the first concrete segment. -/
def nmA : Str := String.toList "files/a1"

/-- Remote name assigned to the second concrete segment. -/
def nmB : Str := String.toList "files/b2"

/-- Fully successful oracle: the transcript fragment carries a trailing
space. -/
def ocA : ChunkOracle Nat :=
  ⟨fun _ => Except.ok nmA, fun _ => Except.ok (String.toList "a "),
    Except.ok ()⟩

/-- Fully successful oracle with fragment "b". -/
def ocB : ChunkOracle Nat :=
  ⟨fun _ => Except.ok nmB, fun _ => Except.ok (String.toList "b"),
    Except.ok ()⟩

/-- A two-segment run in which every remote call succeeds and the first
fragment ends in a space. -/
def runC1 : FullOut Nat :=
  transcribe_full_audio [(pA, ocA), (pB, ocB)] ⟨[pA, pB], [], []⟩

/-- C1 counterexample: with fragments "a " and "b" the code returns
"a b" (each fragment is stripped before joining), while the claimed
formula trim(concat(fragment[0], space, fragment[1])) gives "a  b";
the two differ. -/
theorem transcript_concat_counterexample :
    runC1.transcript = String.toList "a b" ∧
      specFullTranscript [String.toList "a ", String.toList "b"] =
        String.toList "a  b" ∧
      runC1.transcript ≠
        specFullTranscript [String.toList "a ", String.toList "b"] := by
  decide

/-- C1 amended: for every sequence of segments whose remote calls all
succeed with fragments ts, the FullTranscript equals
trim(concat(strip(ts[0]), space, ..., strip(ts[n-1]))): each fragment is
stripped of surrounding whitespace before being joined in segment-index
order with single separating spaces, and the result is trimmed —
regardless of any internal retry activity. -/
theorem transcript_concat_amended {ε : Type}
    (chunks : List (Str × ChunkOracle ε)) (ts : List Str) (s : PipeState)
    (hF : List.Forall₂ ChunkSucceeds chunks ts) :
    (transcribe_full_audio chunks s).transcript =
      specFullTranscript (ts.map pyStrip) := by
  simp only [transcribe_full_audio,
    loop_success_concat hF [] { s with registry := [] }]
  exact pyStrip_foldl_accumStep ts

/-- Concrete instantiation of the amended concatenation claim on the
two-segment run runC1. -/
theorem transcript_concat_amended_witness :
    runC1.transcript =
      specFullTranscript
        ([String.toList "a ", String.toList "b"].map pyStrip) :=
  transcript_concat_amended [(pA, ocA), (pB, ocB)]
    [String.toList "a ", String.toList "b"] ⟨[pA, pB], [], []⟩
    (List.Forall₂.cons ⟨⟨nmA, rfl⟩, rfl, rfl⟩
      (List.Forall₂.cons ⟨⟨nmB, rfl⟩, rfl, rfl⟩ List.Forall₂.nil))

/-- Local path of a segment whose staging always fails. -/
def pS : Str := String.toList "chunk_s.wav"

/-- Oracle whose upload fails on every attempt: staging is exhausted. -/
def ocStageFail : ChunkOracle Nat :=
  ⟨fun _ => Except.error 5, fun _ => Except.error 5, Except.ok ()⟩

/-- Local path of the honest segment whose genuine transcript text is
exactly the failure literal. -/
def pH : Str := String.toList "chunk_h.wav"

/-- Fully successful oracle whose genuine transcript equals the
in-band failure literal. -/
def ocHonest : ChunkOracle Nat :=
  ⟨fun _ => Except.ok (String.toList "files/h1"),
    fun _ => Except.ok failLiteral, Except.ok ()⟩

/-- The fully successful run over the honest segment. -/
def runHonest : FullOut Nat :=
  transcribe_full_audio [(pH, ocHonest)] ⟨[pH], [], []⟩

/-- C9: transcribe_full_audio signals failure in-band: whenever the
chunk loop raises, it returns the literal string as its normal return
value and the caller's equality test flags it; moreover a fully
successful run whose genuine fragment text equals the literal returns
the very same value and is flagged by the same test, so it is
indistinguishable from a failed run. -/
theorem in_band_failure {ε : Type}
    (chunks : List (Str × ChunkOracle ε)) (s : PipeState) (e : ε)
    (h : (transcribeLoop chunks [] { s with registry := [] }).1 =
      Except.error e) :
    (transcribe_full_audio chunks s).transcript = failLiteral ∧
      transcript_failure_check (transcribe_full_audio chunks s).transcript =
        true ∧
      (transcribeLoop [(pH, ocHonest)] []
        (⟨[pH], [], []⟩ : PipeState)).1 =
        Except.ok (String.toList "Transcription failed. ") ∧
      runHonest.transcript = failLiteral ∧
      transcript_failure_check runHonest.transcript = true := by
  refine ⟨?_, ?_, by decide, by decide, by decide⟩
  · simp [transcribe_full_audio, h]
  · simp [transcribe_full_audio, h, transcript_failure_check]

/-- Concrete instantiation of the in-band failure claim: a run whose
only segment exhausts staging retries returns the failure literal. -/
theorem in_band_failure_witness :
    (transcribe_full_audio [(pS, ocStageFail)]
        (⟨[pS], [], []⟩ : PipeState)).transcript = failLiteral ∧
      transcript_failure_check
        (transcribe_full_audio [(pS, ocStageFail)]
          (⟨[pS], [], []⟩ : PipeState)).transcript = true ∧
      (transcribeLoop [(pH, ocHonest)] []
        (⟨[pH], [], []⟩ : PipeState)).1 =
        Except.ok (String.toList "Transcription failed. ") ∧
      runHonest.transcript = failLiteral ∧
      transcript_failure_check runHonest.transcript = true :=
  in_band_failure [(pS, ocStageFail)] ⟨[pS], [], []⟩ 5 (by decide)

/-- Result of the staging-failure chunk call, starting from a state in
which only the segment's local file exists. -/
def outStage : ChunkOut Nat :=
  transcribe_chunk ocStageFail pS ⟨[pS], [], []⟩

/-- C3 counterexample: when the staging upload exhausts its retries,
_transcribe_chunk propagates the error before its try/finally block
exists, so the segment's local file is never removed: it is still
present after the call, contradicting the claimed unconditional
deletion. -/
theorem local_file_deleted_counterexample :
    pS ∈ outStage.state.locals ∧ outStage.localRemoves = 0 ∧
      outStage.result = Except.error 5 := by decide

/-- C3 amended: whenever the staging upload succeeded and the remote
release call did not itself raise, the segment's local file is removed
exactly once and is absent after the call, whether the call returned
transcript text or propagated a transcription error; when the staging
upload itself fails after exhausting retries, the call returns with the
local file untouched and still present. -/
theorem local_file_deleted_amended {ε : Type} (oc : ChunkOracle ε)
    (p : Str) (s : PipeState) (nm : Str)
    (hup : (safe_gemini_call oc.upload).result = Except.ok nm)
    (hdel : oc.del = Except.ok ())
    (hmem : p ∈ s.locals) (hnd : s.locals.Nodup) :
    (transcribe_chunk oc p s).localRemoves = 1 ∧
      p ∉ (transcribe_chunk oc p s).state.locals := by
  simp only [transcribe_chunk, hup, hdel]
  rw [if_pos hmem]
  refine ⟨rfl, ?_⟩
  simp [List.Nodup.mem_erase_iff hnd]

/-- Concrete instantiation of the amended local-deletion claim on the
successful oracle ocA. -/
theorem local_file_deleted_amended_witness :
    (transcribe_chunk ocA pA (⟨[pA], [], []⟩ : PipeState)).localRemoves
        = 1 ∧
      pA ∉ (transcribe_chunk ocA pA
        (⟨[pA], [], []⟩ : PipeState)).state.locals :=
  local_file_deleted_amended ocA pA ⟨[pA], [], []⟩ nmA rfl rfl
    (by decide) (by decide)

/-- Remote name of the segment whose remote release fails. -/
def nmD : Str := String.toList "files/d4"

/-- Oracle whose upload and transcription succeed but whose remote
delete call raises. -/
def ocDelFail : ChunkOracle Nat :=
  ⟨fun _ => Except.ok nmD, fun _ => Except.ok (String.toList "d"),
    Except.error 9⟩

/-- C10: in the guaranteed-release cleanup the unwrapped remote delete
runs before the local removal; if it raises, the cleanup exception
replaces whatever result or error the staging and transcription steps
produced, the local segment file is not removed, the staged remote file
remains, and the delete was invoked exactly once (it is not wrapped in
the retry wrapper). -/
theorem cleanup_delete_failure {ε : Type} (oc : ChunkOracle ε)
    (p : Str) (s : PipeState) (nm : Str) (e₂ : ε)
    (hup : (safe_gemini_call oc.upload).result = Except.ok nm)
    (hdel : oc.del = Except.error e₂) :
    (transcribe_chunk oc p s).result = Except.error e₂ ∧
      (transcribe_chunk oc p s).state.locals = s.locals ∧
      (transcribe_chunk oc p s).localRemoves = 0 ∧
      (transcribe_chunk oc p s).delCalls = 1 ∧
      (transcribe_chunk oc p s).state.remote = s.remote ++ [nm] := by
  simp [transcribe_chunk, hup, hdel]

/-- Concrete instantiation of the cleanup-failure claim on the oracle
whose remote delete raises. -/
theorem cleanup_delete_failure_witness :
    (transcribe_chunk ocDelFail pB (⟨[pB], [], []⟩ : PipeState)).result
        = Except.error 9 ∧
      (transcribe_chunk ocDelFail pB
        (⟨[pB], [], []⟩ : PipeState)).state.locals = [pB] ∧
      (transcribe_chunk ocDelFail pB
        (⟨[pB], [], []⟩ : PipeState)).localRemoves = 0 ∧
      (transcribe_chunk ocDelFail pB
        (⟨[pB], [], []⟩ : PipeState)).delCalls = 1 ∧
      (transcribe_chunk ocDelFail pB
        (⟨[pB], [], []⟩ : PipeState)).state.remote = [] ++ [nmD] :=
  cleanup_delete_failure ocDelFail pB ⟨[pB], [], []⟩ nmD 9 rfl rfl

/-- A one-segment fully successful run, reaching the Done state. -/
def runC4 : FullOut Nat :=
  transcribe_full_audio [(pA, ocA)] ⟨[pA], [], []⟩

/-- C4 counterexample: after a fully successful run the
uploaded_files_ref registry still holds the handle of the uploaded
segment — entries are appended on upload and never removed — so the
registry does not contain zero entries at Done. -/
theorem registry_empty_counterexample :
    runC4.state.registry = [nmA] ∧ runC4.state.registry ≠ [] ∧
      runC4.transcript = String.toList "a" := by decide

/-- C4 amended: when the pipeline run terminates — successfully or on
an error — the set of files still staged with the remote service is
empty, provided every remote release call succeeded; the
uploaded_files_ref list itself is never emptied and retains one entry
per staged upload. -/
theorem staged_set_empty_amended {ε : Type}
    (chunks : List (Str × ChunkOracle ε)) (s : PipeState)
    (hrem : s.remote = [])
    (hdel : ∀ c ∈ chunks, c.2.del = Except.ok ()) :
    (transcribe_full_audio chunks s).state.remote = [] := by
  have h := loop_remote_empty chunks [] { s with registry := [] }
    (by simpa using hrem) hdel
  simp only [transcribe_full_audio]
  split <;> simpa using h

/-- Concrete instantiation of the amended staged-set claim: a run with
one successful and one transcription-failing segment ends with no file
staged remotely. -/
theorem staged_set_empty_amended_witness :
    (transcribe_full_audio [(pA, ocA), (pB, ocB)]
      (⟨[pA, pB], [], []⟩ : PipeState)).state.remote = [] :=
  staged_set_empty_amended [(pA, ocA), (pB, ocB)] ⟨[pA, pB], [], []⟩ rfl
    (by decide)

/-- C7: at every point of a pipeline run — after each resource
mutation, across every success or failure outcome of the per-segment
calls — at most one file is staged with the remote service: each
segment's upload is released before the next segment is staged. -/
theorem at_most_one_staged {ε : Type}
    (chunks : List (Str × ChunkOracle ε)) (s : PipeState)
    (hrem : s.remote = []) :
    ∀ st ∈ (transcribe_full_audio chunks s).states,
      st.remote.length ≤ 1 := by
  have h := loop_states_bound chunks [] { s with registry := [] }
    (by simpa using hrem)
  simp only [transcribe_full_audio]
  split <;> simpa using h

/-- Concrete instantiation of the staged-file invariant on a run whose
second segment's remote release raises (the staged file leaks, but at
no point do two staged files coexist). -/
theorem at_most_one_staged_witness :
    ((transcribe_full_audio [(pA, ocA), (pB, ocDelFail)]
        (⟨[pA, pB], [], []⟩ : PipeState)).states.all
      fun st => decide (st.remote.length ≤ 1)) = true := by
  have h := at_most_one_staged [(pA, ocA), (pB, ocDelFail)]
    ⟨[pA, pB], [], []⟩ rfl
  rw [List.all_eq_true]
  intro st hst
  simpa using h st hst

/-! ## The Segmenter: make_chunks and chunk_audio_file -/

/-- The fixed segment bound: 15 minutes in milliseconds. -/
def CHUNK_LENGTH_MS : Nat := 900000

/-- Ceiling division on naturals. -/
def ceilDiv (a b : Nat) : Nat := (a + b - 1) / b

/-- The pydub helper make_chunks called by the Segmenter: the audio
(a list of equal-duration frames) is cut into ceil(length / B)
consecutive slices, slice i being the window [i*B, (i+1)*B). -/
def make_chunks {α : Type} (xs : List α) (B : Nat) : List (List α) :=
  (List.range (ceilDiv xs.length B)).map fun i => (xs.drop (i * B)).take B

/-- chunk_audio_file: decode the audio and split it with make_chunks at
the fixed bound.  The persisted temporary files carry exactly these
slices as contents; the temporary paths and the deletion of the source
audio file are effects not needed by the segmentation claim. -/
def chunk_audio_file {α : Type} (audio : List α) : List (List α) :=
  make_chunks audio CHUNK_LENGTH_MS

theorem ceilDiv_eq_zero {B n : Nat} (hB : 0 < B)
    (h : ceilDiv n B = 0) : n = 0 := by
  have := (Nat.div_eq_zero_iff hB).mp h
  omega

theorem ceilDiv_sub {B n : Nat} (hB : 0 < B) (hn : 0 < n) :
    ceilDiv n B = ceilDiv (n - B) B + 1 := by
  rcases Nat.le_total n B with h | h
  · have h0 : n - B = 0 := by omega
    have e1 : n + B - 1 = (n - 1) + B := by omega
    have e2 : (n - 1) / B = 0 := Nat.div_eq_of_lt (by omega)
    have e3 : (B - 1) / B = 0 := Nat.div_eq_of_lt (by omega)
    simp [ceilDiv, h0, e1, Nat.add_div_right _ hB, e2, e3]
  · have e1 : n + B - 1 = (n - B + B - 1) + B := by omega
    rw [ceilDiv, ceilDiv, e1, Nat.add_div_right _ hB]

theorem make_chunks_flatten_aux {α : Type} {B : Nat} (hB : 0 < B) :
    ∀ (n : Nat) (xs : List α), ceilDiv xs.length B = n →
      ((List.range n).map fun i => (xs.drop (i * B)).take B).flatten
        = xs := by
  intro n
  induction n with
  | zero =>
    intro xs h
    have hz : xs.length = 0 := ceilDiv_eq_zero hB h
    have : xs = [] := List.eq_nil_of_length_eq_zero hz
    simp [this]
  | succ n ih =>
    intro xs h
    have hpos : 0 < xs.length := by
      by_contra hc
      have hz : xs.length = 0 := by omega
      have : ceilDiv xs.length B = 0 := by
        simp [ceilDiv, hz, Nat.div_eq_of_lt (by omega : B - 1 < B)]
      omega
    have hrec : ceilDiv (xs.drop B).length B = n := by
      have := ceilDiv_sub hB hpos
      rw [List.length_drop]
      omega
    have comp : ∀ i : Nat,
        (xs.drop ((i + 1) * B)).take B
          = (((xs.drop B).drop (i * B)).take B) := by
      intro i
      rw [List.drop_drop, show B + i * B = (i + 1) * B by ring]
    rw [List.range_succ_eq_map, List.map_cons, List.map_map,
      List.flatten_cons]
    have tail_eq :
        ((List.range n).map
          ((fun i => (xs.drop (i * B)).take B) ∘ Nat.succ)).flatten
          = xs.drop B := by
      have : ((List.range n).map
          ((fun i => (xs.drop (i * B)).take B) ∘ Nat.succ))
          = (List.range n).map
            fun i => ((xs.drop B).drop (i * B)).take B := by
        apply List.map_congr_left
        intro i _
        simpa using comp i
      rw [this, ih (xs.drop B) hrec]
    rw [tail_eq]
    simp [List.take_append_drop]

theorem make_chunks_flatten {α : Type} {B : Nat} (hB : 0 < B)
    (xs : List α) : (make_chunks xs B).flatten = xs :=
  make_chunks_flatten_aux hB (ceilDiv xs.length B) xs rfl

theorem make_chunks_le {α : Type} (xs : List α) (B : Nat) :
    ∀ c ∈ make_chunks xs B, c.length ≤ B := by
  intro c hc
  simp only [make_chunks, List.mem_map, List.mem_range] at hc
  obtain ⟨i, _, rfl⟩ := hc
  simp [List.length_take]

theorem make_chunks_full {α : Type} {B : Nat} (hB : 0 < B)
    (xs : List α) (i : Nat)
    (h : i + 1 < (make_chunks xs B).length) :
    ((make_chunks xs B).get
      ⟨i, Nat.lt_of_succ_lt h⟩).length = B := by
  have hlen : (make_chunks xs B).length = ceilDiv xs.length B := by
    simp [make_chunks]
  have hdiv : i + 2 ≤ (xs.length + B - 1) / B := by
    rw [hlen] at h
    simpa [ceilDiv] using h
  have hmul : (i + 2) * B ≤ xs.length + B - 1 :=
    (Nat.le_div_iff_mul_le hB).mp hdiv
  have hmul' : i * B + 2 * B ≤ xs.length + B - 1 := by
    calc i * B + 2 * B = (i + 2) * B := by ring
    _ ≤ xs.length + B - 1 := hmul
  have hget : ((make_chunks xs B).get ⟨i, Nat.lt_of_succ_lt h⟩)
      = (xs.drop (i * B)).take B := by
    simp [make_chunks]
  rw [hget]
  rw [List.length_take, List.length_drop]
  generalize hm : i * B = m at hmul' ⊢
  omega

theorem make_chunks_sum {α : Type} {B : Nat} (hB : 0 < B)
    (xs : List α) :
    ((make_chunks xs B).map List.length).sum = xs.length := by
  rw [← List.length_flatten, make_chunks_flatten hB]

/-- C5: for every decodable audio input (a list of frames) and the
fixed segment bound, chunk_audio_file produces exactly
ceil(duration / bound) segments; the segments flatten back to the
source audio (they cover it contiguously in index order with no gaps or
overlaps); each segment is at most the bound long; every segment except
possibly the last is exactly the bound long; and the segment durations
sum to the source duration. -/
theorem chunking_spec {α : Type} (audio : List α) :
    (chunk_audio_file audio).length
        = ceilDiv audio.length CHUNK_LENGTH_MS ∧
      (chunk_audio_file audio).flatten = audio ∧
      (∀ c ∈ chunk_audio_file audio, c.length ≤ CHUNK_LENGTH_MS) ∧
      (∀ i : Nat, ∀ h : i + 1 < (chunk_audio_file audio).length,
        ((chunk_audio_file audio).get
          ⟨i, Nat.lt_of_succ_lt h⟩).length = CHUNK_LENGTH_MS) ∧
      ((chunk_audio_file audio).map List.length).sum
        = audio.length := by
  have hB : 0 < CHUNK_LENGTH_MS := by norm_num [CHUNK_LENGTH_MS]
  refine ⟨by simp [chunk_audio_file, make_chunks],
    make_chunks_flatten hB audio,
    make_chunks_le audio CHUNK_LENGTH_MS,
    fun i h => make_chunks_full hB audio i h,
    make_chunks_sum hB audio⟩

/-- Concrete instantiation of the segmentation claim on a short
three-frame audio input. -/
theorem chunking_spec_witness :
    (chunk_audio_file [0, 1, 2]).length
        = ceilDiv (List.length [0, 1, 2]) CHUNK_LENGTH_MS ∧
      (chunk_audio_file [0, 1, 2]).flatten = [0, 1, 2] ∧
      (∀ c ∈ chunk_audio_file [0, 1, 2], c.length ≤ CHUNK_LENGTH_MS) ∧
      (∀ i : Nat, ∀ h : i + 1 < (chunk_audio_file [0, 1, 2]).length,
        ((chunk_audio_file [0, 1, 2]).get
          ⟨i, Nat.lt_of_succ_lt h⟩).length = CHUNK_LENGTH_MS) ∧
      ((chunk_audio_file [0, 1, 2]).map List.length).sum
        = List.length [0, 1, 2] :=
  chunking_spec [0, 1, 2]

/-! ## The Media Normalizer: extract_audio_if_video -/

/-- The video container suffixes tested by extract_audio_if_video. -/
def videoSuffixes : List Str :=
  [String.toList ".mp4", String.toList ".mov", String.toList ".avi"]

/-- Python str.lower on character-list strings. -/
def lowerStr (s : Str) : Str := s.map Char.toLower

/-- The test file_path.lower().endswith((".mp4", ".mov", ".avi")). -/
def is_video_name (p : Str) : Bool :=
  videoSuffixes.any fun suf => suf.isSuffixOf (lowerStr p)

/-- Result of extract_audio_if_video: the returned destination path or
the raised exception's message, the final set of local files, and the
ordered intermediate filesystem states after each mutation. -/
structure ExtractOut where
  result : Except Str Str
  fs : List Str
  states : List (List Str)

/-- The message of the exception raised on a transcoding failure; it
carries the tool's diagnostic output. -/
def extractErrMsg (diag : Str) : Str :=
  String.toList "Audio extraction failed. ffmpeg error: " ++ diag

/-- extract_audio_if_video: a non-video input is renamed to the
destination path; a video input is transcoded by ffmpeg (modelled by
the transcode outcome: ok creates the destination, error creates
nothing and carries the diagnostic text), after which the source is
deleted; on transcoding failure the source is deleted if it still
exists and the exception propagates with the diagnostic in its
message. -/
def extract_audio_if_video (transcode : Except Str Unit)
    (file_path temp_audio_path : Str) (fs : List Str) : ExtractOut :=
  if is_video_name file_path = false then
    let s1 := fs.erase file_path ++ [temp_audio_path]
    ⟨Except.ok temp_audio_path, s1, [s1]⟩
  else
    match transcode with
    | Except.ok _ =>
      let s1 := fs ++ [temp_audio_path]
      let s2 := s1.erase file_path
      ⟨Except.ok temp_audio_path, s2, [s1, s2]⟩
    | Except.error diag =>
      let s1 := if file_path ∈ fs then fs.erase file_path else fs
      ⟨Except.error (extractErrMsg diag), s1, [s1]⟩

/-- C8: extract_audio_if_video deletes the source on success and on
failure.  A non-video input is moved to the destination.  A video input
is transcoded and the original deleted only afterwards: in the state in
which transcoding has just reported success the source is still
present, and it is absent in the following state.  On transcoding
failure the call raises a message carrying the tool's diagnostic
output, the source is deleted, and the destination is absent. -/
theorem media_normalizer_cleanup (transcode : Except Str Unit)
    (file_path temp_audio_path : Str) (fs : List Str)
    (hmem : file_path ∈ fs) (hnd : fs.Nodup)
    (hdst : temp_audio_path ∉ fs) (hne : file_path ≠ temp_audio_path) :
    (is_video_name file_path = false →
      (extract_audio_if_video transcode file_path temp_audio_path
          fs).result = Except.ok temp_audio_path ∧
        file_path ∉ (extract_audio_if_video transcode file_path
          temp_audio_path fs).fs ∧
        temp_audio_path ∈ (extract_audio_if_video transcode file_path
          temp_audio_path fs).fs) ∧
      (is_video_name file_path = true → transcode = Except.ok () →
        (extract_audio_if_video transcode file_path temp_audio_path
            fs).result = Except.ok temp_audio_path ∧
          file_path ∉ (extract_audio_if_video transcode file_path
            temp_audio_path fs).fs ∧
          temp_audio_path ∈ (extract_audio_if_video transcode file_path
            temp_audio_path fs).fs ∧
          (extract_audio_if_video transcode file_path temp_audio_path
              fs).states =
            [fs ++ [temp_audio_path],
              (fs ++ [temp_audio_path]).erase file_path] ∧
          file_path ∈ fs ++ [temp_audio_path]) ∧
      (∀ diag : Str, is_video_name file_path = true →
        transcode = Except.error diag →
        (extract_audio_if_video transcode file_path temp_audio_path
            fs).result = Except.error (extractErrMsg diag) ∧
          file_path ∉ (extract_audio_if_video transcode file_path
            temp_audio_path fs).fs ∧
          temp_audio_path ∉ (extract_audio_if_video transcode file_path
            temp_audio_path fs).fs) := by
  have hnd' : (fs ++ [temp_audio_path]).Nodup := by
    refine List.Nodup.append hnd (by simp) ?_
    intro a ha hb
    simp only [List.mem_singleton] at hb
    subst hb
    exact hdst ha
  refine ⟨?_, ?_, ?_⟩
  · intro hv
    have e : extract_audio_if_video transcode file_path temp_audio_path fs
        = ⟨Except.ok temp_audio_path,
            fs.erase file_path ++ [temp_audio_path],
            [fs.erase file_path ++ [temp_audio_path]]⟩ := by
      unfold extract_audio_if_video
      rw [if_pos hv]
    rw [e]
    exact ⟨rfl, by simp [List.Nodup.mem_erase_iff hnd, hne], by simp⟩
  · intro hv ht
    subst ht
    have e : extract_audio_if_video (Except.ok ()) file_path
        temp_audio_path fs
        = ⟨Except.ok temp_audio_path,
            (fs ++ [temp_audio_path]).erase file_path,
            [fs ++ [temp_audio_path],
              (fs ++ [temp_audio_path]).erase file_path]⟩ := by
      unfold extract_audio_if_video
      rw [if_neg (by simp [hv])]
    rw [e]
    refine ⟨rfl, ?_, ?_, rfl, by simp [hmem]⟩
    · simp [List.Nodup.mem_erase_iff hnd']
    · rw [List.mem_erase_of_ne (Ne.symm hne)]
      simp
  · intro diag hv ht
    subst ht
    have e : extract_audio_if_video (Except.error diag) file_path
        temp_audio_path fs
        = ⟨Except.error (extractErrMsg diag), fs.erase file_path,
            [fs.erase file_path]⟩ := by
      unfold extract_audio_if_video
      rw [if_neg (by simp [hv]), if_pos hmem]
    rw [e]
    refine ⟨rfl, ?_, ?_⟩
    · simp [List.Nodup.mem_erase_iff hnd]
    · intro hc
      exact hdst (List.mem_of_mem_erase hc)

/-- A concrete video source path. -/
def srcMp4 : Str := String.toList "lec.mp4"

/-- A concrete destination audio path. -/
def dstMp3 : Str := String.toList "audio.mp3"

/-- A concrete ffmpeg diagnostic text. -/
def diagX : Str := String.toList "bad codec"

/-- Concrete instantiation of the media-normalizer claim: a video
source with a failing transcode, and the same source with a successful
transcode. -/
theorem media_normalizer_cleanup_witness :
    ((extract_audio_if_video (Except.error diagX) srcMp4 dstMp3
          [srcMp4]).result = Except.error (extractErrMsg diagX) ∧
        srcMp4 ∉ (extract_audio_if_video (Except.error diagX) srcMp4
          dstMp3 [srcMp4]).fs ∧
        dstMp3 ∉ (extract_audio_if_video (Except.error diagX) srcMp4
          dstMp3 [srcMp4]).fs) ∧
      ((extract_audio_if_video (Except.ok ()) srcMp4 dstMp3
          [srcMp4]).result = Except.ok dstMp3 ∧
        srcMp4 ∉ (extract_audio_if_video (Except.ok ()) srcMp4 dstMp3
          [srcMp4]).fs ∧
        dstMp3 ∈ (extract_audio_if_video (Except.ok ()) srcMp4 dstMp3
          [srcMp4]).fs ∧
        (extract_audio_if_video (Except.ok ()) srcMp4 dstMp3
            [srcMp4]).states =
          [[srcMp4] ++ [dstMp3], ([srcMp4] ++ [dstMp3]).erase srcMp4] ∧
        srcMp4 ∈ [srcMp4] ++ [dstMp3]) :=
  ⟨(media_normalizer_cleanup (Except.error diagX) srcMp4 dstMp3 [srcMp4]
      (by decide) (by decide) (by decide) (by decide)).2.2 diagX
      (by decide) rfl,
    (media_normalizer_cleanup (Except.ok ()) srcMp4 dstMp3 [srcMp4]
      (by decide) (by decide) (by decide) (by decide)).2.1
      (by decide) rfl⟩

end VoiceNotes
